import Mathlib

/-
Formal model of the R-GCN message-propagation engine from
src/poem/models/unimodal/rgcn.py, together with theorems checking the
specification's claims against the code.

Modelling conventions:
* Real-valued tensors are modelled over ℚ.  torch.sqrt (used only by the
  symmetric message normalization) has no rational counterpart and is kept
  abstract as a function field `sqrt` of the configuration; the code's
  divisor structure is preserved exactly.
* Entity-indexed tensors are modelled as functions ℕ → (Fin d → ℚ);
  edge-index-aligned tensors as lists.
* The boolean update `node_mask[sources] |= node_mask[targets]` gathers the
  ORed values from the old mask and scatters them back with a
  non-accumulating assignment; duplicate indices are resolved write by write
  in edge order (the last write wins), as a serial index_put resolves them.
* Batch normalization is kept abstract as a matrix-level transform: it may
  depend on all node rows, as training-mode BatchNorm1d does.
* Random dropout draws (torch.rand) are explicit function arguments;
  an edge/self-loop is kept when its draw exceeds the dropout rate, exactly
  as in the code (`torch.rand(...) > rate`).
-/

open BigOperators

set_option linter.unusedVariables false

/-! ### Neighborhood selector (rgcn.py, `_get_neighborhood`, lines 26-54) -/

/-- A non-accumulating scatter `mask[index] = value`, executed write by write
in list order so that with duplicate indices the last write wins — the way a
serial index_put resolves them (PyTorch documents the surviving write as
unspecified). -/
def scatterAssign (mask : ℕ → Bool) : List (ℕ × Bool) → (ℕ → Bool)
  | [] => mask
  | (i, b) :: rest => scatterAssign (fun v => if v == i then b else mask v) rest

/-- The vectorized update `node_mask[sources] |= node_mask[targets]`: gather
`node_mask[sources] | node_mask[targets]` from the old mask, then scatter the
ORed values back into the source positions with a non-accumulating
assignment. -/
def nbHalfStep (sources targets : List ℕ) (mask : ℕ → Bool) : ℕ → Bool :=
  scatterAssign mask ((sources.zip targets).map (fun e => (e.1, mask e.1 || mask e.2)))

/-- The symmetric update `node_mask[targets] |= node_mask[sources]`. -/
def nbBackStep (sources targets : List ℕ) (mask : ℕ → Bool) : ℕ → Bool :=
  scatterAssign mask ((sources.zip targets).map (fun e => (e.2, mask e.2 || mask e.1)))

/-- One iteration of the `for _ in range(k)` loop of `_get_neighborhood`:
the backward substep (when undirected) reads the mask already updated by the
forward substep, as in the code. -/
def nbIter (sources targets : List ℕ) (undirected : Bool) (mask : ℕ → Bool) : ℕ → Bool :=
  if undirected then nbBackStep sources targets (nbHalfStep sources targets mask)
  else nbHalfStep sources targets mask

/-- The node mask after `k` iterations, starting from the query nodes. -/
def nbMask (sources targets : List ℕ) (undirected : Bool) (startNodes : List ℕ) :
    ℕ → (ℕ → Bool)
  | 0 => fun v => startNodes.contains v
  | k + 1 => nbIter sources targets undirected (nbMask sources targets undirected startNodes k)

/-- Model of `_get_neighborhood`: the edge mask
`node_mask[targets] (|= node_mask[sources] if undirected)`. -/
def getNeighborhood (startNodes sources targets : List ℕ) (k numNodes : ℕ)
    (undirected : Bool) : List Bool :=
  if undirected then
    (targets.zip sources).map
      (fun e => nbMask sources targets undirected startNodes k e.1
        || nbMask sources targets undirected startNodes k e.2)
  else
    targets.map (nbMask sources targets undirected startNodes k)

/-- Modelled from the spec: exact hop-by-hop reachability of nodes from the
query set, following edges backwards (a source node is reached from its
target), and in both directions when undirected. -/
def reachWithin (sources targets : List ℕ) (und : Bool) (startNodes : List ℕ) :
    ℕ → ℕ → Bool
  | 0, v => startNodes.contains v
  | j + 1, v =>
    reachWithin sources targets und startNodes j v
      || (sources.zip targets).any (fun e =>
          (e.1 == v && reachWithin sources targets und startNodes j e.2)
          || (und && e.2 == v && reachWithin sources targets und startNodes j e.1))

/-- Modelled from the spec: an edge belongs to the exact k-hop neighborhood
when its message-recipient endpoint (target, or either endpoint if
undirected) is reachable from a query node within k-1 steps, i.e. the edge
itself is reachable within k propagation steps. -/
def edgeNeeded (sources targets : List ℕ) (und : Bool) (startNodes : List ℕ)
    (k src tgt : ℕ) : Bool :=
  decide (0 < k)
    && (reachWithin sources targets und startNodes (k - 1) tgt
      || (und && reachWithin sources targets und startNodes (k - 1) src))

/-! ### Data model -/

/-- A mapped triple (head entity, relation, tail entity) of the graph store. -/
structure Triple where
  h : ℕ
  r : ℕ
  t : ℕ
deriving DecidableEq, Repr

/-- Entity-indexed embedding matrix of width `d`. -/
abbrev Emb (d : ℕ) := ℕ → Fin d → ℚ

/-- The fields of the RGCN module read by `_enrich_embeddings` and
`_get_relation_weights`.  `bases`/`att` are the basis-decomposition
parameters (layer → base → matrix, layer → relation → base → weight);
`blocks` holds the block-decomposition parameters
(layer → relation → block → row → column), which the code stores in
`self.bases` as a four-dimensional tensor per layer.  `batchNorm` models
`self.batch_norms[i]` as an abstract transform of the whole embedding
matrix, so it may depend on every node row, as the batch statistics of
training-mode BatchNorm1d do. -/
structure RGCNConfig (d : ℕ) where
  numEntities : ℕ
  numRelations : ℕ
  numLayers : ℕ
  decomposition : String
  numBases : ℕ
  bases : ℕ → ℕ → Fin d → Fin d → ℚ
  att : ℕ → ℕ → ℕ → ℚ
  blocks : ℕ → ℕ → ℕ → ℕ → ℕ → ℚ
  messageNormalization : Option String
  useBias : Bool
  biases : ℕ → Fin d → ℚ
  useBatchNorm : Bool
  batchNorm : ℕ → Emb d → Emb d
  activation : Option (ℚ → ℚ)
  sqrt : ℚ → ℚ
  training : Bool
  edgeDropout : Option ℚ
  selfLoopDropout : Option ℚ
  bufferMessages : Bool
  triples : List Triple

/-! ### Relation weight generator (rgcn.py, `_get_relation_weights`, lines 444-470) -/

/-- The slice assignment `w[start:stop, start:stop] = block`. -/
def writeBlock {d : ℕ} (bs : ℕ) (blk : ℕ → ℕ → ℚ) (start : ℕ)
    (w : Fin d → Fin d → ℚ) : Fin d → Fin d → ℚ :=
  fun i j =>
    if start ≤ i.val ∧ i.val < start + bs ∧ start ≤ j.val ∧ j.val < start + bs then
      blk (i.val - start) (j.val - start)
    else w i j

/-- Block branch: `w = zeros(d, d)`, then
`for b, start in enumerate(range(0, d, block_size)): w[start:stop, start:stop] = blocks[r, b]`
with `block_size = d // num_bases` (the loop runs `num_bases` times since the
constructor guarantees divisibility). -/
def blockWeight (d : ℕ) (numBases : ℕ) (blocksR : ℕ → ℕ → ℕ → ℚ) :
    Fin d → Fin d → ℚ :=
  (List.range numBases).foldl
    (fun w b => writeBlock (d / numBases) (blocksR b) (b * (d / numBases)) w)
    (fun _ _ => 0)

/-- Basis branch: `w = torch.sum(att[:, None, None] * b, dim=0)` with
`att = self.att[i_layer][r, :]` and `b = self.bases[i_layer]`. -/
def basisWeight (d : ℕ) (numBases : ℕ) (attR : ℕ → ℚ)
    (basesL : ℕ → Fin d → Fin d → ℚ) : Fin d → Fin d → ℚ :=
  fun i j => ∑ k ∈ Finset.range numBases, attR k * basesL k i j

/-- Model of `_get_relation_weights`; the final branch raises AssertionError. -/
def getRelationWeightsE {d : ℕ} (cfg : RGCNConfig d) (iLayer r : ℕ) :
    Except String (Fin d → Fin d → ℚ) :=
  if cfg.decomposition = "block" then
    Except.ok (blockWeight d cfg.numBases (cfg.blocks iLayer r))
  else if cfg.decomposition = "basis" then
    Except.ok (basisWeight d cfg.numBases (cfg.att iLayer r) (cfg.bases iLayer))
  else
    Except.error ("Unknown decomposition: " ++ cfg.decomposition)

/-- Total view of `_get_relation_weights` used by the propagation engine;
the error branch is unreachable for configurations accepted by the
constructor and is mapped to the zero matrix. -/
def relationWeight {d : ℕ} (cfg : RGCNConfig d) (iLayer r : ℕ) :
    Fin d → Fin d → ℚ :=
  match getRelationWeightsE cfg iLayer r with
  | Except.ok w => w
  | Except.error _ => fun _ _ => 0

/-! ### Constructor validation (rgcn.py, `__init__`, lines 156-209) -/

/-- The attributes the constructor derives after its validation checks. -/
structure RGCNInitResult where
  numBases : ℕ
  decomposition : String
  messageNormalization : Option String
  edgeDropout : ℚ
  selfLoopDropout : ℚ
  useBias : Bool
deriving DecidableEq, Repr

/-- The tail of `__init__` after the decomposition checks: normalization
check, self-loop-dropout defaulting, and batch-norm forcibly disabling bias. -/
def rgcnInitRest (numBases : ℕ) (useBias useBatchNorm : Bool) (edgeDropout : ℚ)
    (selfLoopDropout : Option ℚ) (messageNormalization : Option String)
    (decomposition : String) : Except String RGCNInitResult :=
  if messageNormalization = none ∨ messageNormalization = some "symmetric"
      ∨ messageNormalization = some "nonsymmetric" then
    Except.ok
      { numBases := numBases
        decomposition := decomposition
        messageNormalization := messageNormalization
        edgeDropout := edgeDropout
        selfLoopDropout := selfLoopDropout.getD edgeDropout
        useBias := if useBatchNorm then false else useBias }
  else
    Except.error "Unknown message normalization."

/-- Model of the `__init__` validation: inverse-triples check, decomposition
dispatch with the heuristic defaults for a missing `num_bases_or_blocks`,
basis-count and divisibility checks, then the normalization check. -/
def rgcnInit (createInverseTriples : Bool) (embeddingDim numRelations : ℕ)
    (numBasesOrBlocks : Option ℕ) (useBias useBatchNorm : Bool) (edgeDropout : ℚ)
    (selfLoopDropout : Option ℚ) (messageNormalization : Option String)
    (decomposition : String) : Except String RGCNInitResult :=
  if createInverseTriples then
    Except.error "R-GCN handles edges in an undirected manner."
  else if decomposition = "basis" then
    if numRelations < numBasesOrBlocks.getD (numRelations / 2 + 1) then
      Except.error "The number of bases should not exceed the number of relations."
    else
      rgcnInitRest (numBasesOrBlocks.getD (numRelations / 2 + 1)) useBias useBatchNorm
        edgeDropout selfLoopDropout messageNormalization decomposition
  else if decomposition = "block" then
    if embeddingDim % numBasesOrBlocks.getD 2 ≠ 0 then
      Except.error
        "With block decomposition, the embedding dimension has to be divisible by the number of blocks."
    else
      rgcnInitRest (numBasesOrBlocks.getD 2) useBias useBatchNorm
        edgeDropout selfLoopDropout messageNormalization decomposition
  else
    Except.error ("Unknown decomposition: " ++ decomposition)

/-- Whether an `Except` value is a success. -/
def exceptIsOk {ε α : Type} : Except ε α → Bool
  | Except.ok _ => true
  | Except.error _ => false

/-! ### Message propagation engine (rgcn.py, `_enrich_embeddings`, lines 315-442) -/

/-- Row vector times matrix: `x_s @ w`. -/
def rowMatMul {d : ℕ} (v : Fin d → ℚ) (w : Fin d → Fin d → ℚ) : Fin d → ℚ :=
  fun j => ∑ i, v i * w i j

/-- Edge dropout `sources[edge_keep_mask]` with keep mask
`torch.rand(E) > edge_dropout`: keep each triple whose draw exceeds the rate. -/
def dropoutFilter (rate : ℚ) (rand : ℕ → ℚ) : ℕ → List Triple → List Triple
  | _, [] => []
  | i, tr :: rest =>
    if rate < rand i then tr :: dropoutFilter rate rand (i + 1) rest
    else dropoutFilter rate rand (i + 1) rest

/-- Edge set after edge dropout (applied only in training mode and only when
a dropout rate is configured). -/
def keptTriples {d : ℕ} (cfg : RGCNConfig d) (randE : ℕ → ℚ) : List Triple :=
  match cfg.training, cfg.edgeDropout with
  | true, some rate => dropoutFilter rate randE 0 cfg.triples
  | _, _ => cfg.triples

/-- Self-loop keep mask `torch.rand(num_entities) > self_loop_dropout`
(training mode only). -/
def nodeKeepMask {d : ℕ} (cfg : RGCNConfig d) (randN : ℕ → ℚ) : Option (ℕ → Bool) :=
  match cfg.training, cfg.selfLoopDropout with
  | true, some rate => some (fun v => decide (rate < randN v))
  | _, _ => none

/-- Restriction of the (dropout-filtered) edge list to a boolean edge mask. -/
def maskFilter : List Triple → List Bool → List Triple
  | [], _ => []
  | _ :: _, [] => []
  | tr :: ts, b :: ms => if b then tr :: maskFilter ts ms else maskFilter ts ms

/-- Batch restriction: when a batch is given, compute the
`num_layers`-hop neighborhood of the batch's head and tail columns
(undirected) over the dropout-filtered edge list and keep only masked edges. -/
def selectedTriples {d : ℕ} (cfg : RGCNConfig d) (kept : List Triple)
    (batch : Option (List Triple)) : List Triple :=
  match batch with
  | none => kept
  | some b =>
    maskFilter kept
      (getNeighborhood (b.map (fun tr => tr.h) ++ b.map (fun tr => tr.t))
        (kept.map (fun tr => tr.h)) (kept.map (fun tr => tr.t))
        cfg.numLayers cfg.numEntities true)

/-- The duplicated bidirectional edge list
`sources_r, targets_r = cat([s, t]), cat([t, s])` as (source, target) pairs. -/
def dupEdges (edgesR : List Triple) : List (ℕ × ℕ) :=
  edgesR.map (fun tr => (tr.h, tr.t)) ++ edgesR.map (fun tr => (tr.t, tr.h))

/-- Relation-specific in-degree over the duplicated edge list: the count that
`torch.unique(targets_r, return_counts=True)` assigns to a target node. -/
def inDeg (dup : List (ℕ × ℕ)) (v : ℕ) : ℕ :=
  (dup.filter (fun p => p.2 == v)).length

/-- Relation-specific out-degree over the duplicated edge list. -/
def outDeg (dup : List (ℕ × ℕ)) (v : ℕ) : ℕ :=
  (dup.filter (fun p => p.1 == v)).length

/-- The message of one (source, target) pair: `x[source] @ w`, normalized
according to `message_normalization` (`cfg.sqrt` stands for torch.sqrt). -/
def message {d : ℕ} (cfg : RGCNConfig d) (w : Fin d → Fin d → ℚ) (x : Emb d)
    (dup : List (ℕ × ℕ)) (p : ℕ × ℕ) : Fin d → ℚ :=
  if cfg.messageNormalization = some "nonsymmetric" then
    fun jj => rowMatMul (x p.1) w jj / (inDeg dup p.2 : ℚ)
  else if cfg.messageNormalization = some "symmetric" then
    fun jj =>
      rowMatMul (x p.1) w jj / cfg.sqrt (inDeg dup p.2 : ℚ)
        / cfg.sqrt (outDeg dup p.1 : ℚ)
  else
    rowMatMul (x p.1) w

/-- The contribution of relation `r` to the accumulator
(`new_x.index_add_(dim=0, index=targets_r, source=m_r)`): each node row
receives the sum of the messages targeted at it.  A relation with no
matching edges is skipped (`if not mask.any(): continue`). -/
def relContribution {d : ℕ} (cfg : RGCNConfig d) (iLayer r : ℕ) (x : Emb d)
    (selected : List Triple) : Emb d :=
  if (selected.filter (fun tr => tr.r == r)).isEmpty then fun _ _ => 0
  else fun v jj =>
    (((dupEdges (selected.filter (fun tr => tr.r == r))).filter
        (fun p => p.2 == v)).map
      (fun p =>
        message cfg (relationWeight cfg iLayer r) x
          (dupEdges (selected.filter (fun tr => tr.r == r))) p jj)).sum

/-- The message accumulator of one layer: the sum over all relation types of
their scattered contributions (starting from `new_x = zeros_like(x)`). -/
def aggregate {d : ℕ} (cfg : RGCNConfig d) (iLayer : ℕ) (x : Emb d)
    (selected : List Triple) : Emb d :=
  fun v jj =>
    ((List.range cfg.numRelations).map
      (fun r => relContribution cfg iLayer r x selected v jj)).sum

/-- The self-loop step: `new_x += new_x @ self_w`, restricted to the kept
rows when a self-loop keep mask exists. -/
def selfLoopStep {d : ℕ} (cfg : RGCNConfig d) (iLayer : ℕ)
    (nodeKeep : Option (ℕ → Bool)) (a : Emb d) : Emb d :=
  match nodeKeep with
  | none => fun v jj => a v jj + rowMatMul (a v) (relationWeight cfg iLayer cfg.numRelations) jj
  | some keep => fun v jj =>
    if keep v then a v jj + rowMatMul (a v) (relationWeight cfg iLayer cfg.numRelations) jj
    else a v jj

/-- Bias addition `new_x += bias` (when enabled). -/
def biasStep {d : ℕ} (cfg : RGCNConfig d) (iLayer : ℕ) (a : Emb d) : Emb d :=
  if cfg.useBias then fun v jj => a v jj + cfg.biases iLayer jj else a

/-- Batch normalization `new_x = batch_norm(new_x)` (when enabled): the
transform receives the whole matrix and may mix information across rows. -/
def batchNormStep {d : ℕ} (cfg : RGCNConfig d) (iLayer : ℕ) (a : Emb d) : Emb d :=
  if cfg.useBatchNorm then cfg.batchNorm iLayer a else a

/-- Elementwise activation (when configured). -/
def activationStep {d : ℕ} (cfg : RGCNConfig d) (a : Emb d) : Emb d :=
  match cfg.activation with
  | some f => fun v jj => f (a v jj)
  | none => a

/-- One layer of message propagation: aggregation over relation types,
self-loop, bias, batch normalization, activation. -/
def layerStep {d : ℕ} (cfg : RGCNConfig d) (nodeKeep : Option (ℕ → Bool))
    (selected : List Triple) (iLayer : ℕ) (x : Emb d) : Emb d :=
  activationStep cfg
    (batchNormStep cfg iLayer
      (biasStep cfg iLayer
        (selfLoopStep cfg iLayer nodeKeep (aggregate cfg iLayer x selected))))

/-- The full propagation part of `_enrich_embeddings` (everything after the
cache check): dropout, optional batch restriction, then `num_layers` layers. -/
def enrichCompute {d : ℕ} (cfg : RGCNConfig d) (x0 : Emb d) (randE randN : ℕ → ℚ)
    (batch : Option (List Triple)) : Emb d :=
  (List.range cfg.numLayers).foldl
    (fun x i =>
      layerStep cfg (nodeKeepMask cfg randN)
        (selectedTriples cfg (keptTriples cfg randE) batch) i x)
    x0

/-! ### Embedding cache (rgcn.py, lines 184-186, 227-231, 322-324, 439-440) -/

/-- The mutable state of the module relevant to caching: its parameters
(`cfg` and the entity embedding matrix `x0`) and the single-slot cache. -/
structure RGCNState (d : ℕ) where
  cfg : RGCNConfig d
  x0 : Emb d
  enrichedEmbeddings : Option (Emb d)

/-- Model of `_enrich_embeddings` including the cache protocol.  Returns the
embeddings, the successor state, and whether propagation was executed
(`false` = cache hit). -/
def enrichEmbeddings {d : ℕ} (st : RGCNState d) (randE randN : ℕ → ℚ)
    (batch : Option (List Triple)) : Emb d × RGCNState d × Bool :=
  match batch, st.enrichedEmbeddings with
  | none, some y => (y, st, false)
  | none, none =>
    if st.cfg.bufferMessages then
      (enrichCompute st.cfg st.x0 randE randN none,
        { st with enrichedEmbeddings := some (enrichCompute st.cfg st.x0 randE randN none) },
        true)
    else
      (enrichCompute st.cfg st.x0 randE randN none, st, true)
  | some b, _ =>
    (enrichCompute st.cfg st.x0 randE randN (some b), st, true)

/-- Model of `post_parameter_update`: invalidate the cache.  (The parameter
mutation itself happens outside, before the hook fires; `st` is the state
holding the already-updated parameters.) -/
def postParameterUpdate {d : ℕ} (st : RGCNState d) : RGCNState d :=
  { st with enrichedEmbeddings := none }

/-! ### Concrete instances used by the witnesses -/

/-- A minimal valid basis-decomposition configuration: two entities, one
relation, one layer, one basis, all weights 1, no normalization, no bias,
training mode with dropout rates 0. -/
def cfgEx : RGCNConfig 1 where
  numEntities := 2
  numRelations := 1
  numLayers := 1
  decomposition := "basis"
  numBases := 1
  bases := fun _ _ _ _ => 1
  att := fun _ _ _ => 1
  blocks := fun _ _ _ _ _ => 0
  messageNormalization := none
  useBias := false
  biases := fun _ _ => 0
  useBatchNorm := false
  batchNorm := fun _ m => m
  activation := none
  sqrt := fun q => q
  training := true
  edgeDropout := some 0
  selfLoopDropout := some 0
  bufferMessages := true
  triples := [⟨0, 0, 1⟩]

/-- `cfgEx` with a different attention row for the self-loop relation
(row 1) but the same row for relation 0. -/
def cfgEx2 : RGCNConfig 1 :=
  { cfgEx with att := fun _ r _ => if r == 0 then (1 : ℚ) else 99 }

/-- A block-decomposition configuration with `d = 2` and two 1×1 blocks. -/
def cfgBlk : RGCNConfig 2 where
  numEntities := 2
  numRelations := 1
  numLayers := 1
  decomposition := "block"
  numBases := 2
  bases := fun _ _ _ _ => 0
  att := fun _ _ _ => 0
  blocks := fun _ _ b ii jj => ((10 * b + 2 * ii + jj + 1 : ℕ) : ℚ)
  messageNormalization := none
  useBias := false
  biases := fun _ _ => 0
  useBatchNorm := false
  batchNorm := fun _ m => m
  activation := none
  sqrt := fun q => q
  training := false
  edgeDropout := none
  selfLoopDropout := none
  bufferMessages := true
  triples := []

/-- Initial entity embeddings for the examples: node 0 is 1, others 0. -/
def x0Ex : Emb 1 := fun v _ => if v == 0 then 1 else 0

/-- A cached embedding value used by the cache witnesses. -/
def embEx : Emb 1 := fun _ _ => 5

/-- A state whose cache is populated. -/
def stEx : RGCNState 1 :=
  { cfg := cfgEx, x0 := x0Ex, enrichedEmbeddings := some embEx }

/-! ### Neighborhood selector under-selection (C4) -/

/-- Claim C4 fails on the code: with duplicate source indices the
non-accumulating scatter can lose a mark.  On sources [0, 0, 3],
targets [1, 2, 0], query node 1, two hops, directed: the edge at index 2
(the edge 3 → 0) is in the exact 2-hop neighborhood — its target 0 is one
backward hop from the query node — but in every iteration the write of True
into node 0 coming from edge 0 → 1 is overwritten by the False coming from
edge 0 → 2, so node 0 is never marked and the returned edge mask omits the
needed edge. -/
theorem neighborhood_underselects_on_duplicate_sources :
    edgeNeeded [0, 0, 3] [1, 2, 0] false [1] 2 3 0 = true
    ∧ (getNeighborhood [1] [0, 0, 3] [1, 2, 0] 2 4 false).getD 2 false = false := by
  decide


/-! ### Relation weight generator: basis decomposition (C1) -/

theorem relationWeight_basis {d : ℕ} (cfg : RGCNConfig d) (iLayer r : ℕ)
    (hdec : cfg.decomposition = "basis") :
    relationWeight cfg iLayer r
      = basisWeight d cfg.numBases (cfg.att iLayer r) (cfg.bases iLayer) := by
  unfold relationWeight getRelationWeightsE
  rw [hdec]
  rfl

theorem relationWeight_block {d : ℕ} (cfg : RGCNConfig d) (iLayer r : ℕ)
    (hdec : cfg.decomposition = "block") :
    relationWeight cfg iLayer r = blockWeight d cfg.numBases (cfg.blocks iLayer r) := by
  unfold relationWeight getRelationWeightsE
  rw [hdec]
  rfl

/-- Claim C1: in basis decomposition, the generated weight matrix for every
layer and relation index (including the self-loop index `num_relations`)
equals the attention-weighted sum of the basis matrices, with weights from
the relation's attention row; and any configuration agreeing with `cfg` on
attention row `r` (its other rows may differ arbitrarily) generates the same
weight matrix for `r`. -/
theorem basis_decomposition_weight {d : ℕ} (cfg : RGCNConfig d) (iLayer r : ℕ)
    (hdec : cfg.decomposition = "basis") :
    (∀ i j : Fin d, relationWeight cfg iLayer r i j
      = ∑ k ∈ Finset.range cfg.numBases, cfg.att iLayer r k * cfg.bases iLayer k i j)
    ∧ (∀ cfg2 : RGCNConfig d, cfg2.decomposition = "basis" →
        cfg2.numBases = cfg.numBases → cfg2.bases = cfg.bases →
        (∀ k, cfg2.att iLayer r k = cfg.att iLayer r k) →
        ∀ i j : Fin d, relationWeight cfg2 iLayer r i j = relationWeight cfg iLayer r i j) := by
  constructor
  · intro i j
    rw [relationWeight_basis cfg iLayer r hdec]
    rfl
  · intro cfg2 hdec2 hnb hb hatt i j
    rw [relationWeight_basis cfg iLayer r hdec, relationWeight_basis cfg2 iLayer r hdec2,
      hnb, hb]
    unfold basisWeight
    exact Finset.sum_congr rfl (fun k _ => by rw [hatt k])

/-- Witness for C1 at a concrete configuration: the weight is the weighted
sum, and changing only the self-loop attention row (cfgEx2) leaves the
weight of relation 0 unchanged. -/
theorem basis_decomposition_weight_witness :
    (relationWeight cfgEx 0 0 0 0
      = ∑ k ∈ Finset.range cfgEx.numBases, cfgEx.att 0 0 k * cfgEx.bases 0 k 0 0)
    ∧ relationWeight cfgEx2 0 0 0 0 = relationWeight cfgEx 0 0 0 0 :=
  ⟨(basis_decomposition_weight cfgEx 0 0 rfl).1 0 0,
   (basis_decomposition_weight cfgEx 0 0 rfl).2 cfgEx2 rfl rfl rfl (fun k => rfl) 0 0⟩

/-! ### Relation weight generator: block decomposition (C2) -/

theorem writeBlock_hit {d : ℕ} (bs : ℕ) (blk : ℕ → ℕ → ℚ) (start : ℕ)
    (w : Fin d → Fin d → ℚ) (i j : Fin d)
    (h : start ≤ i.val ∧ i.val < start + bs ∧ start ≤ j.val ∧ j.val < start + bs) :
    writeBlock bs blk start w i j = blk (i.val - start) (j.val - start) := by
  unfold writeBlock
  exact if_pos h

theorem writeBlock_miss {d : ℕ} (bs : ℕ) (blk : ℕ → ℕ → ℚ) (start : ℕ)
    (w : Fin d → Fin d → ℚ) (i j : Fin d)
    (h : ¬(start ≤ i.val ∧ i.val < start + bs ∧ start ≤ j.val ∧ j.val < start + bs)) :
    writeBlock bs blk start w i j = w i j := by
  unfold writeBlock
  exact if_neg h

theorem block_index_unique (bs a b i : ℕ) (hbs : 0 < bs)
    (ha : a * bs ≤ i ∧ i < a * bs + bs) (hb : b * bs ≤ i ∧ i < b * bs + bs) :
    a = b := by
  rcases Nat.lt_trichotomy a b with h | h | h
  · exfalso
    have h1 : (a + 1) * bs ≤ b * bs := Nat.mul_le_mul_right bs h
    have h2 : i < (a + 1) * bs := by rw [Nat.succ_mul]; exact ha.2
    exact absurd (lt_of_lt_of_le (lt_of_lt_of_le h2 h1) hb.1) (lt_irrefl i)
  · exact h
  · exfalso
    have h1 : (b + 1) * bs ≤ a * bs := Nat.mul_le_mul_right bs h
    have h2 : i < (b + 1) * bs := by rw [Nat.succ_mul]; exact hb.2
    exact absurd (lt_of_lt_of_le (lt_of_lt_of_le h2 h1) ha.1) (lt_irrefl i)

theorem foldl_writeBlock_miss {d : ℕ} (bs : ℕ) (blkF : ℕ → ℕ → ℕ → ℚ) :
    ∀ (L : List ℕ) (w : Fin d → Fin d → ℚ) (i j : Fin d),
      (∀ b ∈ L, ¬(b * bs ≤ i.val ∧ i.val < b * bs + bs
          ∧ b * bs ≤ j.val ∧ j.val < b * bs + bs)) →
      L.foldl (fun w b => writeBlock bs (blkF b) (b * bs) w) w i j = w i j := by
  intro L
  induction L with
  | nil => intro w i j _; rfl
  | cons a L ih =>
    intro w i j h
    simp only [List.foldl_cons]
    rw [ih _ i j (fun b hb => h b (List.mem_cons_of_mem a hb))]
    exact writeBlock_miss bs (blkF a) (a * bs) w i j (h a (List.mem_cons_self a L))

theorem foldl_writeBlock_hit {d : ℕ} (bs : ℕ) (blkF : ℕ → ℕ → ℕ → ℚ) (hbs : 0 < bs) :
    ∀ (L : List ℕ) (w : Fin d → Fin d → ℚ) (i j : Fin d) (b : ℕ),
      b ∈ L →
      b * bs ≤ i.val → i.val < b * bs + bs → b * bs ≤ j.val → j.val < b * bs + bs →
      L.foldl (fun w b2 => writeBlock bs (blkF b2) (b2 * bs) w) w i j
        = blkF b (i.val - b * bs) (j.val - b * bs) := by
  intro L
  induction L with
  | nil => intro w i j b hb; simp at hb
  | cons a L ih =>
    intro w i j b hb hi1 hi2 hj1 hj2
    simp only [List.foldl_cons]
    by_cases hbL : b ∈ L
    · exact ih _ i j b hbL hi1 hi2 hj1 hj2
    · have hba : b = a := by
        rcases List.mem_cons.mp hb with h | h
        · exact h
        · exact absurd h hbL
      rw [foldl_writeBlock_miss bs blkF L _ i j ?_]
      · rw [← hba]
        exact writeBlock_hit bs (blkF b) (b * bs) w i j ⟨hi1, hi2, hj1, hj2⟩
      · intro c hc hcon
        exact hbL
          ((block_index_unique bs c b i.val hbs ⟨hcon.1, hcon.2.1⟩ ⟨hi1, hi2⟩) ▸ hc)

theorem blockWeight_on_block {d : ℕ} (nb : ℕ) (blocksR : ℕ → ℕ → ℕ → ℚ)
    (b ii jj : ℕ) (hbs : 0 < d / nb) (hb : b < nb)
    (hii : ii < d / nb) (hjj : jj < d / nb)
    (h1 : b * (d / nb) + ii < d) (h2 : b * (d / nb) + jj < d) :
    blockWeight d nb blocksR ⟨b * (d / nb) + ii, h1⟩ ⟨b * (d / nb) + jj, h2⟩
      = blocksR b ii jj := by
  unfold blockWeight
  rw [foldl_writeBlock_hit (d / nb) blocksR hbs (List.range nb) (fun _ _ => 0)
    ⟨b * (d / nb) + ii, h1⟩ ⟨b * (d / nb) + jj, h2⟩ b (List.mem_range.mpr hb)
    (Nat.le_add_right _ _) (Nat.add_lt_add_left hii _)
    (Nat.le_add_right _ _) (Nat.add_lt_add_left hjj _)]
  rw [Nat.add_sub_cancel_left, Nat.add_sub_cancel_left]

theorem blockWeight_off_block {d : ℕ} (nb : ℕ) (blocksR : ℕ → ℕ → ℕ → ℚ)
    (i j : Fin d) (hbs : 0 < d / nb)
    (hij : i.val / (d / nb) ≠ j.val / (d / nb)) :
    blockWeight d nb blocksR i j = 0 := by
  unfold blockWeight
  rw [foldl_writeBlock_miss (d / nb) blocksR (List.range nb) (fun _ _ => 0) i j ?_]
  intro b _ hcon
  obtain ⟨hc1, hc2, hc3, hc4⟩ := hcon
  have hi : i.val / (d / nb) = b :=
    Nat.div_eq_of_lt_le hc1 (by rw [Nat.succ_mul]; exact hc2)
  have hj : j.val / (d / nb) = b :=
    Nat.div_eq_of_lt_le hc3 (by rw [Nat.succ_mul]; exact hc4)
  exact hij (hi.trans hj.symm)

/-- Claim C2: in block decomposition, the generated weight matrix is
block-diagonal: the entries of the b-th diagonal block equal the stored
block parameters `blocks[layer][r, b]`, and every entry outside the diagonal
blocks is exactly zero. -/
theorem block_decomposition_weight {d : ℕ} (cfg : RGCNConfig d) (iLayer r : ℕ)
    (hdec : cfg.decomposition = "block") (hbs : 0 < d / cfg.numBases) :
    (∀ b ii jj : ℕ, b < cfg.numBases → ii < d / cfg.numBases → jj < d / cfg.numBases →
      ∀ (h1 : b * (d / cfg.numBases) + ii < d) (h2 : b * (d / cfg.numBases) + jj < d),
      relationWeight cfg iLayer r ⟨b * (d / cfg.numBases) + ii, h1⟩
          ⟨b * (d / cfg.numBases) + jj, h2⟩
        = cfg.blocks iLayer r b ii jj)
    ∧ (∀ i j : Fin d, i.val / (d / cfg.numBases) ≠ j.val / (d / cfg.numBases) →
        relationWeight cfg iLayer r i j = 0) := by
  constructor
  · intro b ii jj hb hii hjj h1 h2
    rw [relationWeight_block cfg iLayer r hdec]
    exact blockWeight_on_block cfg.numBases (cfg.blocks iLayer r) b ii jj hbs hb hii hjj h1 h2
  · intro i j hij
    rw [relationWeight_block cfg iLayer r hdec]
    exact blockWeight_off_block cfg.numBases (cfg.blocks iLayer r) i j hbs hij

/-- Witness for C2 on a 2×2 weight with two 1×1 blocks: the (1,1) entry is
block 1's parameter and the off-block (0,1) entry is zero. -/
theorem block_decomposition_weight_witness :
    relationWeight cfgBlk 0 0 ⟨1, by decide⟩ ⟨1, by decide⟩ = cfgBlk.blocks 0 0 1 0 0
    ∧ relationWeight cfgBlk 0 0 ⟨0, by decide⟩ ⟨1, by decide⟩ = 0 :=
  ⟨(block_decomposition_weight cfgBlk 0 0 rfl (by decide)).1 1 0 0 (by decide) (by decide)
      (by decide) (by decide) (by decide),
   (block_decomposition_weight cfgBlk 0 0 rfl (by decide)).2 ⟨0, by decide⟩ ⟨1, by decide⟩
      (by decide)⟩

/-! ### Constructor validation (C3) -/

/-- Claim C3: the constructor succeeds exactly when none of the error
conditions holds: inverse triples in the factory, an unknown decomposition
name, a basis count (after the heuristic default) exceeding the relation
count in basis mode, an embedding dimension not divisible by the number of
blocks (after the heuristic default) in block mode, or an unknown message
normalization mode. -/
theorem constructor_error_iff (inv : Bool) (embeddingDim numRelations : ℕ)
    (nb : Option ℕ) (useBias useBatchNorm : Bool) (ed : ℚ) (sld : Option ℚ)
    (mn : Option String) (dec : String) :
    exceptIsOk (rgcnInit inv embeddingDim numRelations nb useBias useBatchNorm
        ed sld mn dec) = true
      ↔ (inv = false
        ∧ (dec = "basis" ∨ dec = "block")
        ∧ (dec = "basis" → nb.getD (numRelations / 2 + 1) ≤ numRelations)
        ∧ (dec = "block" → embeddingDim % nb.getD 2 = 0)
        ∧ (mn = none ∨ mn = some "symmetric" ∨ mn = some "nonsymmetric")) := by
  unfold rgcnInit rgcnInitRest
  split_ifs with h1 h2 h3 h4 h5 h6 h7 <;>
    simp_all [exceptIsOk]

/-! ### Embedding cache (C5, C6) -/

/-- Claim C5: a call without a batch while a cached result exists returns the
cached value immediately with no recomputation and no state change; the
post-parameter-update hook clears the cache, so the next call without a
batch recomputes from the current parameters. -/
theorem cache_hit_and_invalidation {d : ℕ} (st : RGCNState d) (y : Emb d)
    (rE rN rE2 rN2 : ℕ → ℚ) (hy : st.enrichedEmbeddings = some y) :
    enrichEmbeddings st rE rN none = (y, st, false)
    ∧ (postParameterUpdate st).enrichedEmbeddings = none
    ∧ (enrichEmbeddings (postParameterUpdate st) rE2 rN2 none).1
        = enrichCompute st.cfg st.x0 rE2 rN2 none
    ∧ (enrichEmbeddings (postParameterUpdate st) rE2 rN2 none).2.2 = true := by
  refine ⟨?_, rfl, ?_, ?_⟩
  · unfold enrichEmbeddings
    rw [hy]
  · cases hb : st.cfg.bufferMessages <;>
      simp [enrichEmbeddings, postParameterUpdate, hb]
  · cases hb : st.cfg.bufferMessages <;>
      simp [enrichEmbeddings, postParameterUpdate, hb]

/-- Witness for C5 at a concrete populated-cache state. -/
theorem cache_hit_and_invalidation_witness :
    enrichEmbeddings stEx (fun _ => 1) (fun _ => 1) none = (embEx, stEx, false)
    ∧ (postParameterUpdate stEx).enrichedEmbeddings = none
    ∧ (enrichEmbeddings (postParameterUpdate stEx) (fun _ => 1) (fun _ => 1) none).1
        = enrichCompute stEx.cfg stEx.x0 (fun _ => 1) (fun _ => 1) none
    ∧ (enrichEmbeddings (postParameterUpdate stEx) (fun _ => 1) (fun _ => 1) none).2.2
        = true :=
  cache_hit_and_invalidation stEx embEx (fun _ => 1) (fun _ => 1) (fun _ => 1)
    (fun _ => 1) rfl

/-- Claim C6: a batched call never writes the cache (it returns the state
unchanged); the cache is written only by a full-graph call, and only when
buffering is enabled and there was no cache hit. -/
theorem batched_call_preserves_cache {d : ℕ} (st : RGCNState d) (rE rN : ℕ → ℚ) :
    (∀ b : List Triple, (enrichEmbeddings st rE rN (some b)).2.1 = st)
    ∧ (enrichEmbeddings st rE rN none).2.1.enrichedEmbeddings
      = (if st.enrichedEmbeddings.isSome then st.enrichedEmbeddings
         else if st.cfg.bufferMessages then
           some (enrichCompute st.cfg st.x0 rE rN none)
         else st.enrichedEmbeddings) := by
  constructor
  · intro b
    cases hc : st.enrichedEmbeddings <;> simp [enrichEmbeddings, hc]
  · cases hc : st.enrichedEmbeddings with
    | some y => simp [enrichEmbeddings, hc]
    | none => cases hb : st.cfg.bufferMessages <;> simp [enrichEmbeddings, hc, hb]

/-! ### Self-loop semantics (C7) -/

/-- Claim C7: the self-loop step applies the self-loop relation's weight
matrix (index `num_relations`) to the in-progress accumulator — the
aggregated messages of this layer — not to the pre-layer embedding matrix,
and adds the result back; with a keep-mask only kept rows are updated and
dropped rows are unchanged.  Consequently the layer output depends on the
pre-layer embeddings only through the accumulator. -/
theorem selfloop_applies_to_accumulator {d : ℕ} (cfg : RGCNConfig d)
    (selected : List Triple) (iLayer : ℕ) (x : Emb d) (v : ℕ) (keep : ℕ → Bool) :
    (selfLoopStep cfg iLayer none (aggregate cfg iLayer x selected) v
      = fun jj => aggregate cfg iLayer x selected v jj
          + rowMatMul (aggregate cfg iLayer x selected v)
              (relationWeight cfg iLayer cfg.numRelations) jj)
    ∧ (keep v = true →
        selfLoopStep cfg iLayer (some keep) (aggregate cfg iLayer x selected) v
          = fun jj => aggregate cfg iLayer x selected v jj
              + rowMatMul (aggregate cfg iLayer x selected v)
                  (relationWeight cfg iLayer cfg.numRelations) jj)
    ∧ (keep v = false →
        selfLoopStep cfg iLayer (some keep) (aggregate cfg iLayer x selected) v
          = aggregate cfg iLayer x selected v)
    ∧ (∀ (nodeKeep : Option (ℕ → Bool)) (x2 : Emb d),
        aggregate cfg iLayer x2 selected = aggregate cfg iLayer x selected →
        layerStep cfg nodeKeep selected iLayer x2
          = layerStep cfg nodeKeep selected iLayer x) := by
  refine ⟨rfl, ?_, ?_, ?_⟩
  · intro hk
    funext jj
    show (if keep v then
        aggregate cfg iLayer x selected v jj
          + rowMatMul (aggregate cfg iLayer x selected v)
              (relationWeight cfg iLayer cfg.numRelations) jj
      else aggregate cfg iLayer x selected v jj) = _
    rw [hk]
    rfl
  · intro hk
    funext jj
    show (if keep v then
        aggregate cfg iLayer x selected v jj
          + rowMatMul (aggregate cfg iLayer x selected v)
              (relationWeight cfg iLayer cfg.numRelations) jj
      else aggregate cfg iLayer x selected v jj) = _
    rw [hk]
    rfl
  · intro nodeKeep x2 hagg
    unfold layerStep
    rw [hagg]

/-- Witness for C7: a kept node's row gains the transformed accumulator, a
dropped node's row is unchanged. -/
theorem selfloop_applies_to_accumulator_witness :
    (selfLoopStep cfgEx 0 (some (fun v => v == 0)) (aggregate cfgEx 0 x0Ex [⟨0, 0, 1⟩]) 0
      = fun jj => aggregate cfgEx 0 x0Ex [⟨0, 0, 1⟩] 0 jj
          + rowMatMul (aggregate cfgEx 0 x0Ex [⟨0, 0, 1⟩] 0)
              (relationWeight cfgEx 0 cfgEx.numRelations) jj)
    ∧ (selfLoopStep cfgEx 0 (some (fun v => v == 0)) (aggregate cfgEx 0 x0Ex [⟨0, 0, 1⟩]) 1
      = aggregate cfgEx 0 x0Ex [⟨0, 0, 1⟩] 1) :=
  ⟨(selfloop_applies_to_accumulator cfgEx [⟨0, 0, 1⟩] 0 x0Ex 0 (fun v => v == 0)).2.1 rfl,
   (selfloop_applies_to_accumulator cfgEx [⟨0, 0, 1⟩] 0 x0Ex 1 (fun v => v == 0)).2.2.1 rfl⟩

/-! ### Zero-edge and zero-degree safety (C8) -/

theorem dupEdges_target_mem {edgesR : List Triple} {p : ℕ × ℕ}
    (hp : p ∈ dupEdges edgesR) :
    ∃ tr ∈ edgesR, (p.1 = tr.h ∧ p.2 = tr.t) ∨ (p.1 = tr.t ∧ p.2 = tr.h) := by
  unfold dupEdges at hp
  rcases List.mem_append.mp hp with h | h
  · obtain ⟨tr, htr, heq⟩ := List.mem_map.mp h
    exact ⟨tr, htr, Or.inl ⟨by rw [← heq], by rw [← heq]⟩⟩
  · obtain ⟨tr, htr, heq⟩ := List.mem_map.mp h
    exact ⟨tr, htr, Or.inr ⟨by rw [← heq], by rw [← heq]⟩⟩

theorem relContribution_zero_row {d : ℕ} (cfg : RGCNConfig d) (iLayer r : ℕ)
    (x : Emb d) (selected : List Triple) (v : ℕ)
    (hiso : ∀ tr ∈ selected, tr.h ≠ v ∧ tr.t ≠ v) :
    ∀ jj, relContribution cfg iLayer r x selected v jj = 0 := by
  intro jj
  unfold relContribution
  split
  · rfl
  · have hfil : (dupEdges (selected.filter (fun tr => tr.r == r))).filter
        (fun p => p.2 == v) = [] := by
      rw [List.filter_eq_nil_iff]
      intro p hp
      obtain ⟨tr, htr, hcase⟩ := dupEdges_target_mem hp
      have htr2 : tr ∈ selected := (List.mem_filter.mp htr).1
      have hvt := hiso tr htr2
      rcases hcase with ⟨_, h2⟩ | ⟨_, h2⟩
      · simp [h2, hvt.2]
      · simp [h2, hvt.1]
    simp only [hfil, List.map_nil, List.sum_nil]

theorem aggregate_zero_row {d : ℕ} (cfg : RGCNConfig d) (iLayer : ℕ) (x : Emb d)
    (selected : List Triple) (v : ℕ)
    (hiso : ∀ tr ∈ selected, tr.h ≠ v ∧ tr.t ≠ v) :
    aggregate cfg iLayer x selected v = fun _ => 0 := by
  funext jj
  unfold aggregate
  apply List.sum_eq_zero
  intro q hq
  obtain ⟨r, hr, rfl⟩ := List.mem_map.mp hq
  exact relContribution_zero_row cfg iLayer r x selected v hiso jj

/-- Claim C8: message propagation never divides by zero and never fails on
empty relations: a relation with no matching edges contributes nothing; the
in-degree of each message's target and the out-degree of each message's
source, counted over the filtered duplicated edge list, are at least one
(so the normalization divisor of every actually sent message is nonzero);
and a node receiving no message keeps its un-normalized zero row. -/
theorem propagation_zero_edge_safety :
    (∀ (d : ℕ) (cfg : RGCNConfig d) (iLayer r : ℕ) (x : Emb d)
      (selected : List Triple),
      selected.filter (fun tr => tr.r == r) = [] →
      relContribution cfg iLayer r x selected = fun _ _ => 0)
    ∧ (∀ (edgesR : List Triple) (p : ℕ × ℕ), p ∈ dupEdges edgesR →
      1 ≤ inDeg (dupEdges edgesR) p.2 ∧ 1 ≤ outDeg (dupEdges edgesR) p.1)
    ∧ (∀ (d : ℕ) (cfg : RGCNConfig d) (iLayer : ℕ) (x : Emb d)
      (selected : List Triple) (v : ℕ),
      (∀ tr ∈ selected, tr.h ≠ v ∧ tr.t ≠ v) →
      aggregate cfg iLayer x selected v = fun _ => 0) := by
  refine ⟨?_, ?_, ?_⟩
  · intro d cfg iLayer r x selected hempty
    unfold relContribution
    rw [if_pos (by rw [hempty]; rfl)]
  · intro edgesR p hp
    constructor
    · have hmem : p ∈ (dupEdges edgesR).filter (fun q => q.2 == p.2) :=
        List.mem_filter.mpr ⟨hp, by simp⟩
      exact List.length_pos.mpr (List.ne_nil_of_mem hmem)
    · have hmem : p ∈ (dupEdges edgesR).filter (fun q => q.1 == p.1) :=
        List.mem_filter.mpr ⟨hp, by simp⟩
      exact List.length_pos.mpr (List.ne_nil_of_mem hmem)
  · intro d cfg iLayer x selected v hiso
    exact aggregate_zero_row cfg iLayer x selected v hiso

/-- Witness for C8: relation 1 has no edges and contributes nothing; the
message along the single duplicated edge has positive degrees; node 2 is
isolated and keeps a zero row. -/
theorem propagation_zero_edge_safety_witness :
    (relContribution cfgEx 0 1 x0Ex [⟨0, 0, 1⟩] = fun _ _ => 0)
    ∧ (1 ≤ inDeg (dupEdges [⟨0, 0, 1⟩]) 1 ∧ 1 ≤ outDeg (dupEdges [⟨0, 0, 1⟩]) 0)
    ∧ aggregate cfgEx 0 x0Ex [⟨0, 0, 1⟩] 2 = fun _ => 0 :=
  ⟨propagation_zero_edge_safety.1 1 cfgEx 0 1 x0Ex [⟨0, 0, 1⟩] (by decide),
   propagation_zero_edge_safety.2.1 [⟨0, 0, 1⟩] (0, 1) (by decide),
   propagation_zero_edge_safety.2.2 1 cfgEx 0 x0Ex [⟨0, 0, 1⟩] 2 (by decide)⟩

/-! ### Isolated nodes (C10) -/

theorem rowMatMul_zero {d : ℕ} (w : Fin d → Fin d → ℚ) :
    rowMatMul (fun _ => 0) w = fun _ => 0 := by
  funext j
  unfold rowMatMul
  exact Finset.sum_eq_zero (fun i _ => zero_mul _)

theorem selfLoopStep_zero_row {d : ℕ} (cfg : RGCNConfig d) (iLayer : ℕ)
    (nodeKeep : Option (ℕ → Bool)) (a : Emb d) (v : ℕ) (ha : a v = fun _ => 0) :
    selfLoopStep cfg iLayer nodeKeep a v = fun _ => 0 := by
  cases nodeKeep with
  | none =>
    funext jj
    show a v jj + rowMatMul (a v) (relationWeight cfg iLayer cfg.numRelations) jj = 0
    simp [ha, rowMatMul_zero]
  | some keep =>
    funext jj
    show (if keep v then
        a v jj + rowMatMul (a v) (relationWeight cfg iLayer cfg.numRelations) jj
      else a v jj) = 0
    split_ifs <;> simp [ha, rowMatMul_zero]

theorem activationStep_row_congr {d : ℕ} (cfg : RGCNConfig d)
    (a b : Emb d) (v : ℕ) (hab : a v = b v) :
    activationStep cfg a v = activationStep cfg b v := by
  unfold activationStep
  cases hact : cfg.activation with
  | some f =>
    funext jj
    show f (a v jj) = f (b v jj)
    rw [congrFun hab jj]
  | none => exact hab

theorem message_congr_source {d : ℕ} (cfg : RGCNConfig d) (w : Fin d → Fin d → ℚ)
    (x x2 : Emb d) (dup : List (ℕ × ℕ)) (p : ℕ × ℕ) (hx : x2 p.1 = x p.1) :
    message cfg w x2 dup p = message cfg w x dup p := by
  unfold message
  simp only [hx]

theorem relContribution_congr_source {d : ℕ} (cfg : RGCNConfig d) (iLayer r : ℕ)
    (x x2 : Emb d) (selected : List Triple) (v : ℕ)
    (hiso : ∀ tr ∈ selected, tr.h ≠ v ∧ tr.t ≠ v)
    (hx : ∀ u, u ≠ v → x2 u = x u) :
    relContribution cfg iLayer r x2 selected = relContribution cfg iLayer r x selected := by
  unfold relContribution
  by_cases hE : (selected.filter (fun tr => tr.r == r)).isEmpty = true
  · rw [if_pos hE, if_pos hE]
  · rw [if_neg hE, if_neg hE]
    funext u jj
    refine congrArg List.sum (List.map_congr_left ?_)
    intro p hp
    have hpd : p ∈ dupEdges (selected.filter (fun tr => tr.r == r)) :=
      (List.mem_filter.mp hp).1
    obtain ⟨tr, htr, hcase⟩ := dupEdges_target_mem hpd
    have hvt := hiso tr (List.mem_filter.mp htr).1
    have hp1 : p.1 ≠ v := by
      rcases hcase with ⟨h1, _⟩ | ⟨h1, _⟩
      · rw [h1]; exact hvt.1
      · rw [h1]; exact hvt.2
    exact congrFun
      (message_congr_source cfg (relationWeight cfg iLayer r) x x2
        (dupEdges (selected.filter (fun tr => tr.r == r))) p (hx p.1 hp1)) jj

/-- The whole accumulator — every node row — is independent of the embedding
row of a node with no incident selected edge: no message gathers it. -/
theorem aggregate_congr_off {d : ℕ} (cfg : RGCNConfig d) (iLayer : ℕ)
    (x x2 : Emb d) (selected : List Triple) (v : ℕ)
    (hiso : ∀ tr ∈ selected, tr.h ≠ v ∧ tr.t ≠ v)
    (hx : ∀ u, u ≠ v → x2 u = x u) :
    aggregate cfg iLayer x2 selected = aggregate cfg iLayer x selected := by
  funext u jj
  unfold aggregate
  refine congrArg List.sum (List.map_congr_left ?_)
  intro r hr
  exact congrFun
    (congrFun (relContribution_congr_source cfg iLayer r x x2 selected v hiso hx) u) jj

/-- Claim C10: a node with no incident edge in the layer's filtered edge set
has a zero accumulator row; because the self-loop transforms the
accumulator, the row handed to batch normalization is exactly the bias row
(zero when bias is disabled), so the node's layer output row is the
activation of the batch-normalized bias; and the output is completely
independent of that node's previous-layer embedding row — batch
normalization may depend on the other rows, but those are never influenced
by the isolated node's own embedding. -/
theorem isolated_node_layer_output {d : ℕ} (cfg : RGCNConfig d)
    (nodeKeep : Option (ℕ → Bool)) (selected : List Triple) (iLayer : ℕ)
    (x : Emb d) (v : ℕ) (hiso : ∀ tr ∈ selected, tr.h ≠ v ∧ tr.t ≠ v) :
    aggregate cfg iLayer x selected v = (fun _ => 0)
    ∧ biasStep cfg iLayer
        (selfLoopStep cfg iLayer nodeKeep (aggregate cfg iLayer x selected)) v
      = (fun jj => if cfg.useBias then cfg.biases iLayer jj else 0)
    ∧ (cfg.useBatchNorm = false →
        layerStep cfg nodeKeep selected iLayer x v
          = activationStep cfg
              (fun _ jj => if cfg.useBias then cfg.biases iLayer jj else 0) v)
    ∧ ∀ x2 : Emb d, (∀ u, u ≠ v → x2 u = x u) →
        layerStep cfg nodeKeep selected iLayer x2
          = layerStep cfg nodeKeep selected iLayer x := by
  have hagg : aggregate cfg iLayer x selected v = (fun _ => 0) :=
    aggregate_zero_row cfg iLayer x selected v hiso
  have hsl : selfLoopStep cfg iLayer nodeKeep (aggregate cfg iLayer x selected) v
      = fun _ => 0 :=
    selfLoopStep_zero_row cfg iLayer nodeKeep _ v hagg
  have hbias : biasStep cfg iLayer
      (selfLoopStep cfg iLayer nodeKeep (aggregate cfg iLayer x selected)) v
      = (fun jj => if cfg.useBias then cfg.biases iLayer jj else 0) := by
    unfold biasStep
    split_ifs with hb
    · funext jj
      show selfLoopStep cfg iLayer nodeKeep (aggregate cfg iLayer x selected) v jj
          + cfg.biases iLayer jj = cfg.biases iLayer jj
      rw [congrFun hsl jj]
      exact zero_add _
    · exact hsl
  refine ⟨hagg, hbias, ?_, ?_⟩
  · intro hbn
    unfold layerStep batchNormStep
    rw [hbn, if_neg Bool.false_ne_true]
    exact activationStep_row_congr cfg _ _ v hbias
  · intro x2 hx
    unfold layerStep
    rw [aggregate_congr_off cfg iLayer x x2 selected v hiso hx]

/-- Witness for C10: node 2 has no incident edge in the single-edge graph;
the fourth conjunct is exercised with an embedding matrix changed only at
node 2's row. -/
theorem isolated_node_layer_output_witness :
    aggregate cfgEx 0 x0Ex [⟨0, 0, 1⟩] 2 = (fun _ => 0)
    ∧ biasStep cfgEx 0 (selfLoopStep cfgEx 0 none (aggregate cfgEx 0 x0Ex [⟨0, 0, 1⟩])) 2
      = (fun jj => if cfgEx.useBias then cfgEx.biases 0 jj else 0)
    ∧ layerStep cfgEx none [⟨0, 0, 1⟩] 0 x0Ex 2
      = activationStep cfgEx (fun _ jj => if cfgEx.useBias then cfgEx.biases 0 jj else 0) 2
    ∧ layerStep cfgEx none [⟨0, 0, 1⟩] 0 (fun u jj => if u == 2 then 7 else x0Ex u jj)
      = layerStep cfgEx none [⟨0, 0, 1⟩] 0 x0Ex :=
  ⟨(isolated_node_layer_output cfgEx none [⟨0, 0, 1⟩] 0 x0Ex 2 (by decide)).1,
   (isolated_node_layer_output cfgEx none [⟨0, 0, 1⟩] 0 x0Ex 2 (by decide)).2.1,
   (isolated_node_layer_output cfgEx none [⟨0, 0, 1⟩] 0 x0Ex 2 (by decide)).2.2.1 rfl,
   (isolated_node_layer_output cfgEx none [⟨0, 0, 1⟩] 0 x0Ex 2 (by decide)).2.2.2
     (fun u jj => if u == 2 then 7 else x0Ex u jj)
     (fun u hu => funext fun jj => by simp [hu])⟩

/-! ### Determinism with dropout rate zero (C9) -/

theorem dropoutFilter_all_kept (rand : ℕ → ℚ) (hpos : ∀ i, 0 < rand i) :
    ∀ (i : ℕ) (l : List Triple), dropoutFilter 0 rand i l = l := by
  intro i l
  induction l generalizing i with
  | nil => rfl
  | cons tr rest ih =>
    unfold dropoutFilter
    rw [if_pos (hpos i), ih (i + 1)]

theorem keptTriples_rate_zero {d : ℕ} (cfg : RGCNConfig d) (randE : ℕ → ℚ)
    (he : cfg.edgeDropout = some 0) (hpos : ∀ i, 0 < randE i) :
    keptTriples cfg randE = cfg.triples := by
  unfold keptTriples
  cases htr : cfg.training
  · rfl
  · rw [he]
    exact dropoutFilter_all_kept randE hpos 0 cfg.triples

theorem nodeKeepMask_rate_zero {d : ℕ} (cfg : RGCNConfig d) (rN rN2 : ℕ → ℚ)
    (hs : cfg.selfLoopDropout = some 0) (h1 : ∀ v, 0 < rN v) (h2 : ∀ v, 0 < rN2 v) :
    nodeKeepMask cfg rN = nodeKeepMask cfg rN2 := by
  unfold nodeKeepMask
  cases htr : cfg.training
  · rfl
  · rw [hs]
    show some (fun v => decide ((0 : ℚ) < rN v)) = some (fun v => decide ((0 : ℚ) < rN2 v))
    congr 1
    funext v
    rw [decide_eq_true (h1 v), decide_eq_true (h2 v)]

/-- Claim C9, amended: with both dropout rates 0, a fixed parameter set and
all drawn uniforms strictly positive, two calls to enrich with the same
batch argument produce identical output embeddings.  (Strict positivity is
needed because the code keeps an edge or self-loop only when its draw
strictly exceeds the rate; see the counterexample below.) -/
theorem enrich_deterministic_rate_zero {d : ℕ} (cfg : RGCNConfig d) (x0 : Emb d)
    (rE rN rE2 rN2 : ℕ → ℚ) (batch : Option (List Triple))
    (he : cfg.edgeDropout = some 0) (hs : cfg.selfLoopDropout = some 0)
    (hE : ∀ i, 0 < rE i) (hE2 : ∀ i, 0 < rE2 i)
    (hN : ∀ v, 0 < rN v) (hN2 : ∀ v, 0 < rN2 v) :
    enrichCompute cfg x0 rE rN batch = enrichCompute cfg x0 rE2 rN2 batch := by
  unfold enrichCompute
  simp only [keptTriples_rate_zero cfg rE he hE, keptTriples_rate_zero cfg rE2 he hE2,
    nodeKeepMask_rate_zero cfg rN rN2 hs hN hN2]

/-- Witness for the amended C9 on the concrete one-edge graph, with two
different strictly positive random streams. -/
theorem enrich_deterministic_rate_zero_witness :
    enrichCompute cfgEx x0Ex (fun _ => 1 / 2) (fun _ => 1) none
      = enrichCompute cfgEx x0Ex (fun _ => 1 / 3) (fun _ => 2) none :=
  enrich_deterministic_rate_zero cfgEx x0Ex (fun _ => 1 / 2) (fun _ => 1)
    (fun _ => 1 / 3) (fun _ => 2) none rfl rfl (fun i => by norm_num)
    (fun i => by norm_num) (fun v => by norm_num) (fun v => by norm_num)

/-- Counterexample to C9 as stated: in training mode with both dropout rates
0, the keep test is `torch.rand(...) > 0`, so a drawn uniform of exactly 0 —
a possible value of torch.rand on the interval from 0 inclusive to 1
exclusive — still drops its edge.  Two calls on the same one-edge graph and
parameters, one drawing 1/2 and one drawing 0 for the edge, give node 1 the
embeddings 2 and 0 respectively. -/
theorem enrich_rate_zero_not_deterministic :
    enrichCompute cfgEx x0Ex (fun _ => 1 / 2) (fun _ => 1) none 1 0
      ≠ enrichCompute cfgEx x0Ex (fun _ => 0) (fun _ => 1) none 1 0 := by
  have hkept : keptTriples cfgEx (fun _ => (1 : ℚ) / 2) = [⟨0, 0, 1⟩] := by
    norm_num [keptTriples, cfgEx, dropoutFilter]
  have hkept0 : keptTriples cfgEx (fun _ => (0 : ℚ)) = [] := rfl
  have hmask : nodeKeepMask cfgEx (fun _ => (1 : ℚ)) = some (fun _ => true) := by
    norm_num [nodeKeepMask, cfgEx]
  have hwfun : ∀ il r : ℕ, relationWeight cfgEx il r = fun _ _ => (1 : ℚ) := by
    intro il r
    rw [relationWeight_basis cfgEx il r rfl]
    funext i j
    norm_num [basisWeight, cfgEx]
  have hmsg : ∀ (w : Fin 1 → Fin 1 → ℚ) (x : Emb 1) (dup : List (ℕ × ℕ)) (p : ℕ × ℕ),
      message cfgEx w x dup p = rowMatMul (x p.1) w := by
    intro w x dup p
    unfold message
    rw [if_neg (by simp [cfgEx]), if_neg (by simp [cfgEx])]
  have hnl : cfgEx.numLayers = 1 := rfl
  have hnr : cfgEx.numRelations = 1 := rfl
  have hub : cfgEx.useBias = false := rfl
  have hubn : cfgEx.useBatchNorm = false := rfl
  have hac : cfgEx.activation = none := rfl
  have h1 : enrichCompute cfgEx x0Ex (fun _ => 1 / 2) (fun _ => 1) none 1 0 = 2 := by
    norm_num [enrichCompute, hkept, hmask, hnl, hnr, hub, hubn, hac, selectedTriples,
      List.range_succ, layerStep, activationStep, batchNormStep, biasStep, selfLoopStep,
      aggregate, relContribution, dupEdges, rowMatMul, hmsg, hwfun, x0Ex, Fin.sum_univ_one]
  have h2 : enrichCompute cfgEx x0Ex (fun _ => 0) (fun _ => 1) none 1 0 = 0 := by
    norm_num [enrichCompute, hkept0, hmask, hnl, hnr, hub, hubn, hac, selectedTriples,
      List.range_succ, layerStep, activationStep, batchNormStep, biasStep, selfLoopStep,
      aggregate, relContribution, dupEdges, rowMatMul, hmsg, hwfun, x0Ex, Fin.sum_univ_one]
  rw [h1, h2]
  norm_num
